import Mathlib

set_option maxRecDepth 100000

/-!
Shallow embedding of the transcript-parsing core of `aim-to-md`
(`src/aim_parser.py` and `src/markdown_converter.py`).

Python strings are modelled as `List Char`; every regular-expression
idiom used by the source is implemented as an executable specialised
scanner with the same leftmost / greedy / lazy semantics as Python's
`re` module on the concrete pattern involved.  Fallible scans return
`Option`; functions whose Python loop advances a cursor by a computed
amount take a fuel argument that is always instantiated with the input
length (the loop consumes at least one character per iteration, so the
fuel never runs out on the actual call).
-/

/-- Python's notion of whitespace (`str.isspace`, and `\s` in `re` for
`str` patterns): ASCII whitespace, the C1 controls Python treats as
space, and the Unicode space separators. -/
def pyIsSpace (c : Char) : Bool :=
  c = ' ' ∨ c = '\t' ∨ c = '\n' ∨ c = '\x0b' ∨ c = '\x0c' ∨ c = '\r' ∨
  c = '\x1c' ∨ c = '\x1d' ∨ c = '\x1e' ∨ c = '\x1f' ∨ c = '\u0085' ∨
  c = ' ' ∨ c = ' ' ∨ (0x2000 ≤ c.toNat ∧ c.toNat ≤ 0x200A) ∨
  c = ' ' ∨ c = ' ' ∨ c = ' ' ∨ c = ' ' ∨ c = '　'

/-- Python `needle in hay` on strings. -/
def hasSubstr (hay needle : List Char) : Bool :=
  if needle.isPrefixOf hay then true
  else
    match hay with
    | [] => false
    | _ :: t => hasSubstr t needle

/-- Python `hay.find(needle)`: index of the first occurrence
(`none` for Python's `-1`). -/
def subIndex (hay needle : List Char) : Option Nat :=
  if needle.isPrefixOf hay then some 0
  else
    match hay with
    | [] => none
    | _ :: t => (subIndex t needle).map (· + 1)

/-- Left part of Python `str.strip()`. -/
def trimL (l : List Char) : List Char := l.dropWhile pyIsSpace

/-- Right part of Python `str.strip()`. -/
def trimR (l : List Char) : List Char := (l.reverse.dropWhile pyIsSpace).reverse

/-- Python `str.strip()` with no argument. -/
def pyStrip (l : List Char) : List Char := trimR (trimL l)

/-- Worker for `pySplit`; fuel bounds the scan (one unit per consumed
character). -/
def pySplitGo (sep : List Char) : Nat → List Char → List (List Char)
  | 0, l => [l]
  | _ + 1, [] => [[]]
  | fuel + 1, c :: rest =>
    if sep ≠ [] ∧ sep.isPrefixOf (c :: rest) then
      [] :: pySplitGo sep fuel ((c :: rest).drop sep.length)
    else
      match pySplitGo sep fuel rest with
      | [] => [[c]]
      | piece :: more => (c :: piece) :: more

/-- Python `str.split(sep)` for a non-empty separator: leftmost,
non-overlapping. -/
def pySplit (sep l : List Char) : List (List Char) := pySplitGo sep l.length l

/-- Flush of a pending whitespace run for `collapseNL` (`run` is held
reversed): a run containing a newline becomes one space, any other run
is kept verbatim. -/
def flushNL (run : List Char) (sawNL : Bool) : List Char :=
  if run = [] then [] else if sawNL then [' '] else run.reverse

/-- Worker for `collapseNL`. -/
def collapseNLAux (run : List Char) (sawNL : Bool) : List Char → List Char
  | [] => flushNL run sawNL
  | c :: rest =>
    if pyIsSpace c then collapseNLAux (c :: run) (sawNL || c = '\n') rest
    else flushNL run sawNL ++ c :: collapseNLAux [] false rest

/-- Python `re.sub(r'\s*\n\s*', ' ', s)`: every maximal whitespace run
that contains a newline collapses to a single space. -/
def collapseNL (l : List Char) : List Char := collapseNLAux [] false l

/-- Flush of a pending run of `n` plain spaces for `collapseSpaces`. -/
def spaceFlush (n : Nat) : List Char := List.replicate (if 3 ≤ n then 2 else n) ' '

/-- Worker for `collapseSpaces`. -/
def collapseSpacesAux (n : Nat) : List Char → List Char
  | [] => spaceFlush n
  | c :: rest =>
    if c = ' ' then collapseSpacesAux (n + 1) rest
    else spaceFlush n ++ c :: collapseSpacesAux 0 rest

/-- Python `re.sub(r'   +', '  ', s)`: every maximal run of three or
more plain spaces collapses to exactly two. -/
def collapseSpaces (l : List Char) : List Char := collapseSpacesAux 0 l

/-- No three consecutive plain spaces occur (invariant of the output of
`collapseSpaces`, used to state idempotence of normalization). -/
def noTriple : List Char → Bool
  | [] => true
  | c :: rest => !(c = ' ' && ([' ', ' ']).isPrefixOf rest) && noTriple rest

/-- Character class of the named-charref pattern of Python
`html.unescape`: `[^\t\n\f <&#;]`. -/
def charrefNameChar (c : Char) : Bool :=
  ¬ (c = '\t' ∨ c = '\n' ∨ c = '\x0c' ∨ c = ' ' ∨ c = '<' ∨ c = '&' ∨ c = '#' ∨ c = ';')

/-- The named-entity table of the model of Python `html.unescape`,
restricted to the standard entities that occur in this development
(the full CPython `html5` table has the same shape; only these names
are exercised here).  Names listed without a trailing semicolon are
the ones CPython also resolves without one. -/
def entTable : List (List Char × List Char) :=
  [("amp;".toList, "&".toList), ("amp".toList, "&".toList),
   ("lt;".toList, "<".toList), ("lt".toList, "<".toList),
   ("gt;".toList, ">".toList), ("gt".toList, ">".toList),
   ("quot;".toList, "\"".toList), ("quot".toList, "\"".toList),
   ("apos;".toList, "'".toList),
   ("nbsp;".toList, " ".toList), ("nbsp".toList, " ".toList)]

/-- Exact lookup in the named-entity table. -/
def namedLookup (g : List Char) : Option (List Char) :=
  (entTable.find? (fun p => p.1 == g)).map Prod.snd

/-- Longest proper-prefix lookup (CPython tries `s[:x]` for
`x = len(s)-1, …, 2`). -/
def prefixLookupFrom (g : List Char) : Nat → Option (List Char × List Char)
  | 0 => none
  | x + 1 =>
    if 2 ≤ x + 1 ∧ x + 1 < g.length then
      match namedLookup (g.take (x + 1)) with
      | some rep => some (rep, g.drop (x + 1))
      | none => prefixLookupFrom g x
    else prefixLookupFrom g x

/-- Numeric value of a list of decimal digits. -/
def digitsVal (ds : List Char) : Nat :=
  ds.foldl (fun a c => a * 10 + (c.toNat - 48)) 0

/-- Numeric value of a list of hexadecimal digits. -/
def hexVal (ds : List Char) : Nat :=
  ds.foldl (fun a c =>
    a * 16 + (if c.isDigit then c.toNat - 48
              else if 'a' ≤ c ∧ c ≤ 'f' then c.toNat - 87
              else c.toNat - 55)) 0

/-- Replacement text for a numeric character reference (surrogates and
out-of-range values become U+FFFD, as in CPython; the CPython tables of
Windows-1252 remappings for a few control codes are not modelled). -/
def numRep (num : Nat) : List Char :=
  if (0xD800 ≤ num ∧ num ≤ 0xDFFF) ∨ 0x10FFFF < num then ['�']
  else [Char.ofNat num]

/-- One character reference at the position just after a `&`, following
the CPython pattern `#[0-9]+;?|#[xX][0-9a-fA-F]+;?|[^\t\n\f <&#;]{1,32};?`
and its replacement function: returns the replacement text and the
number of characters consumed after the `&`. -/
def charref (s : List Char) : Option (List Char × Nat) :=
  match s with
  | '#' :: rest =>
    let ds := rest.takeWhile Char.isDigit
    if ds ≠ [] then
      let semi := if (rest.drop ds.length).head? = some ';' then 1 else 0
      some (numRep (digitsVal ds), 1 + ds.length + semi)
    else
      match rest with
      | c :: rest2 =>
        if c = 'x' ∨ c = 'X' then
          let hs := rest2.takeWhile (fun d => d.isDigit ∨ ('a' ≤ d ∧ d ≤ 'f') ∨ ('A' ≤ d ∧ d ≤ 'F'))
          if hs ≠ [] then
            let semi := if (rest2.drop hs.length).head? = some ';' then 1 else 0
            some (numRep (hexVal hs), 2 + hs.length + semi)
          else none
        else none
      | [] => none
  | s =>
    let run := (s.takeWhile charrefNameChar).take 32
    if run = [] then none
    else
      let hasSemi := (s.drop run.length).head? = some ';'
      let g := run ++ (if hasSemi then [';'] else [])
      match namedLookup g with
      | some rep => some (rep, g.length)
      | none =>
        match prefixLookupFrom g (g.length - 1) with
        | some (rep, tail) => some (rep ++ tail, g.length)
        | none => some ('&' :: g, g.length)

/-- Worker for `unescape`. -/
def unescapeGo : Nat → List Char → List Char
  | 0, l => l
  | _ + 1, [] => []
  | fuel + 1, '&' :: rest =>
    (match charref rest with
     | some (rep, n) => rep ++ unescapeGo fuel (rest.drop n)
     | none => '&' :: unescapeGo fuel rest)
  | fuel + 1, c :: rest => c :: unescapeGo fuel rest

/-- Model of Python `html.unescape` (with the restricted entity table
of `entTable`): returns the input unchanged when it contains no `&`. -/
def unescape (l : List Char) : List Char :=
  if hasSubstr l ['&'] then unescapeGo l.length l else l

/-- The content-normalization pipeline the parsers apply to extracted
message text (`aim_parser.py` lines 126-129 and 260-263):
entity decoding, newline-run collapsing, 3+-space-run collapsing,
and stripping. -/
def normalizeContent (l : List Char) : List Char :=
  pyStrip (collapseSpaces (collapseNL (unescape l)))

/-- The normalized message record produced by the parsers
(`aim_parser.py` lines 9-14).  It carries exactly the four fields of
the source dataclass. -/
structure Message where
  sender : List Char
  timestamp : List Char
  content : List Char
  is_system_message : Bool
deriving DecidableEq, Repr

/-- The literal phrase both dialects look for to classify sign-off
notices. -/
def signOffLit : List Char := "signed off at".toList

/-- Largest `q ≤ n` with `ok q = true`. -/
def lastValid (ok : Nat → Bool) : Nat → Option Nat
  | 0 => if ok 0 then some 0 else none
  | n + 1 => if ok (n + 1) then some (n + 1) else lastValid ok n

/-- Match of `([^>]+signed off at[^<]+)` anchored at the start of `s`:
the greedy `[^>]+` places the literal as late as possible inside the
maximal `[^>]` run, and the trailing `[^<]+` is the maximal non-`<` run
(required non-empty).  Returns the captured group. -/
def signOffAt (s : List Char) : Option (List Char) :=
  let ok := fun q => decide (1 ≤ q) && signOffLit.isPrefixOf (s.drop q) &&
      !((s.drop (q + signOffLit.length)).takeWhile (fun c => c ≠ '<')).isEmpty
  match lastValid ok ((s.takeWhile (fun c => c ≠ '>')).length) with
  | none => none
  | some q =>
    some (s.take (q + signOffLit.length +
      ((s.drop (q + signOffLit.length)).takeWhile (fun c => c ≠ '<')).length))

/-- Python `re.search(r'([^>]+signed off at[^<]+)', s)`: leftmost start
position at which `signOffAt` succeeds. -/
def signOffSearch : List Char → Option (List Char)
  | [] => none
  | c :: rest =>
    match signOffAt (c :: rest) with
    | some g => some g
    | none => signOffSearch rest

/-- Tail of the pattern `<B>.*?<FONT[^>]*>([^<]+)<!-- \(([^)]+)\)--></B>`
anchored at a position after the `<B>`: `<FONT` + maximal non-`>` run +
`>` + non-empty non-`<` run (group 1) + `<!-- (` + non-empty non-`)`
run (group 2) + `)--></B>`. -/
def headerAt (s : List Char) : Option (List Char × List Char) :=
  if ("<FONT".toList).isPrefixOf s then
    let s1 := s.drop 5
    let s2 := s1.drop ((s1.takeWhile (fun c => c ≠ '>')).length)
    if s2.head? = some '>' then
      let s3 := s2.drop 1
      let g1 := s3.takeWhile (fun c => c ≠ '<')
      if g1 ≠ [] then
        let s4 := s3.drop g1.length
        if ("<!-- (".toList).isPrefixOf s4 then
          let s5 := s4.drop 6
          let g2 := s5.takeWhile (fun c => c ≠ ')')
          if g2 ≠ [] ∧ (")--></B>".toList).isPrefixOf (s5.drop g2.length) then
            some (g1, g2)
          else none
        else none
      else none
    else none
  else none

/-- Scan for the earliest completion position of the header pattern's
lazy `.*?`.  The executed pattern (`aim_parser.py` line 100) is
compiled without `re.DOTALL` (the DOTALL `self.message_pattern` built
in `__init__` is never used), so the `.*?` gap cannot consume a
newline: the scan stops at the first `'\n'`.  Character classes such
as the `[^>]*`/`[^<]+`/`[^)]+` inside `headerAt` still match newlines,
as in Python. -/
def headerScan : List Char → Option (List Char × List Char)
  | [] => none
  | c :: rest =>
    match headerAt (c :: rest) with
    | some r => some r
    | none => if c = '\n' then none else headerScan rest

/-- Python `re.search(r'<B>.*?<FONT[^>]*>([^<]+)<!-- \(([^)]+)\)--></B>', line)`
as executed at `aim_parser.py` line 100, with no flags: the match
starts at the leftmost `<B>` from which the newline-bounded lazy gap
reaches a completion; a `<B>` whose stretch is exhausted without a
completion falls through to later `<B>` occurrences. -/
def headerSearch : List Char → Option (List Char × List Char)
  | [] => none
  | c :: rest =>
    if ("<B>".toList).isPrefixOf (c :: rest) then
      match headerScan ((c :: rest).drop 3) with
      | some r => some r
      | none => headerSearch rest
    else headerSearch rest

/-- Worker for `fontFindAll`. -/
def fontFindAllGo : Nat → List Char → List (List Char)
  | 0, _ => []
  | _ + 1, [] => []
  | fuel + 1, c :: rest =>
    if ("<FONT".toList).isPrefixOf (c :: rest) then
      let s1 := (c :: rest).drop 5
      let s2 := s1.drop ((s1.takeWhile (fun x => x ≠ '>')).length)
      if s2.head? = some '>' then
        let s3 := s2.drop 1
        match subIndex s3 ("</FONT>".toList) with
        | some e => s3.take e :: fontFindAllGo fuel (s3.drop (e + 7))
        | none => fontFindAllGo fuel rest
      else fontFindAllGo fuel rest
    else fontFindAllGo fuel rest

/-- Python `re.findall(r'<FONT[^>]*>(.*?)</FONT>', s, re.DOTALL)`:
each match opens with a `<FONT…>` tag and the lazy group runs to the
first following `</FONT>`. -/
def fontFindAll (l : List Char) : List (List Char) := fontFindAllGo l.length l

/-- Worker for `stripTags`. -/
def stripTagsGo : Nat → List Char → List Char
  | 0, l => l
  | _ + 1, [] => []
  | fuel + 1, c :: rest =>
    if c = '<' then
      let run := rest.takeWhile (fun x => x ≠ '>')
      if run ≠ [] ∧ (rest.drop run.length).head? = some '>' then
        stripTagsGo fuel (rest.drop (run.length + 1))
      else c :: stripTagsGo fuel rest
    else c :: stripTagsGo fuel rest

/-- Python `re.sub(r'<[^>]+>', '', s)`: removes every `<…>` span with a
non-empty body; a `<` with no later `>` (or an empty `<>`) is kept. -/
def stripTags (l : List Char) : List Char := stripTagsGo l.length l

/-- Python `re.sub(r'^[:\s]+', '', s)`: drops one leading run of colons
and whitespace. -/
def dropColonSpace (l : List Char) : List Char :=
  l.dropWhile (fun c => c = ':' ∨ pyIsSpace c)

/-- The non-sign-off part of
`CommentBasedParser._process_message_line` (`aim_parser.py` lines
99-136): header extraction, `</B>`-relative content region, `<FONT>`
concatenation, tag stripping, leading-colon cleanup, and
normalization; a block is dropped when the header does not match,
`</B>` is absent, or the cleaned content is empty before
normalization.  `commentCombined` is the `combined_content` local of
the source after the leading-colon cleanup. -/
def commentCombined (line : List Char) (i : Nat) : List Char :=
  dropColonSpace (((fontFindAll (line.drop i)).map stripTags).flatten)

def commentSenderPart (line : List Char) : List Message :=
  match headerSearch line with
  | none => []
  | some (sender, ts) =>
    match subIndex line ("</B>".toList) with
    | none => []
    | some i =>
      if pyStrip (commentCombined line i) ≠ [] then
        [⟨pyStrip sender, pyStrip ts, normalizeContent (commentCombined line i), false⟩]
      else []

/-- `CommentBasedParser._process_message_line` (`aim_parser.py` lines
85-136): a block containing `signed off at` whose capture pattern
matches becomes a System message; otherwise the regular path runs. -/
def processMessageLine (line : List Char) : List Message :=
  if hasSubstr line signOffLit then
    match signOffSearch line with
    | some g => [⟨"System".toList, [], pyStrip g, true⟩]
    | none => commentSenderPart line
  else commentSenderPart line

/-- `<BR>`-piece classification used by the accumulation loop of
`CommentBasedParser.parse`: a piece starts a new block when it carries
a comment timestamp. -/
def hasTimestampLine (line : List Char) : Bool :=
  hasSubstr line ("<!-- (".toList) && hasSubstr line (")-->".toList)

/-- The accumulation loop of `CommentBasedParser.parse`
(`aim_parser.py` lines 56-83), threading the pending block and the
messages list. -/
def commentParseAux (cur : List Char) (msgs : List Message) :
    List (List Char) → List Message
  | [] => if cur ≠ [] then msgs ++ processMessageLine cur else msgs
  | line :: rest =>
    if pyStrip line = [] then commentParseAux cur msgs rest
    else if hasTimestampLine line = true ∧ cur ≠ [] then
      commentParseAux line (msgs ++ processMessageLine cur) rest
    else commentParseAux (cur ++ line) msgs rest

/-- `CommentBasedParser.parse`. -/
def commentParse (doc : List Char) : List Message :=
  commentParseAux [] [] (pySplit ("<BR>".toList) doc)

/-- The same accumulation loop, returning the flushed blocks instead of
their messages (used to state order/positioning properties of
`commentParse`). -/
def commentBlocksAux (cur : List Char) : List (List Char) → List (List Char)
  | [] => if cur ≠ [] then [cur] else []
  | line :: rest =>
    if pyStrip line = [] then commentBlocksAux cur rest
    else if hasTimestampLine line = true ∧ cur ≠ [] then
      cur :: commentBlocksAux line rest
    else commentBlocksAux (cur ++ line) rest

/-- The blocks `CommentBasedParser.parse` flushes, in source order. -/
def commentBlocks (doc : List Char) : List (List Char) :=
  commentBlocksAux [] (pySplit ("<BR>".toList) doc)

/-- The message-wrapper opening tag of the SPAN dialect
(`aim_parser.py` lines 155 and 163). -/
def wrapLit : List Char := "<SPAN STYLE=\"background-color: #ffffff;\">".toList

/-- Worker for `findSpanEnd`: `count` is the nesting counter, `i` the
Python cursor, and the list argument the suffix at `i`. -/
def findSpanEndGo : Nat → Nat → Nat → List Char → Option Nat
  | 0, count, i, _ => if count = 0 then some i else none
  | _ + 1, count, i, [] => if count = 0 then some i else none
  | fuel + 1, count, i, c :: rest =>
    if ("<SPAN".toList).isPrefixOf (c :: rest) then
      match subIndex (c :: rest) ['>'] with
      | some j => findSpanEndGo fuel (count + 1) (i + j + 1) ((c :: rest).drop (j + 1))
      | none => findSpanEndGo fuel (count + 1) (i + 1) rest
    else if ("</SPAN>".toList).isPrefixOf (c :: rest) then
      if count = 1 then some i
      else findSpanEndGo fuel (count - 1) (i + 7) ((c :: rest).drop 7)
    else findSpanEndGo fuel count (i + 1) rest

/-- `SpanBasedParser._find_span_end` (`aim_parser.py` lines 175-194):
position of the `</SPAN>` matching the already-consumed wrapper opener,
scanning with a nesting counter; `none` for the Python `-1` of an
unterminated wrapper. -/
def findSpanEnd (content : List Char) : Option Nat :=
  findSpanEndGo content.length 1 0 content

/-- The sender/timestamp patterns of `_process_span_message`
(`aim_parser.py` lines 215 and 219), anchored at the start of `s`:
`<B><FONT[^>]*>` (or just `<FONT[^>]*>` when `requireB` is false) +
non-empty non-`<` run (group 1) + `<SPAN[^>]*>` + whitespace run + `(`
+ non-empty non-`)` run (group 2) + `)</SPAN></B>` + optional `:` +
`</FONT>`. -/
def spanHeadAt (requireB : Bool) (s : List Char) : Option (List Char × List Char) :=
  let pre := (if requireB then "<B><FONT" else "<FONT").toList
  if pre.isPrefixOf s then
    let s1 := s.drop pre.length
    let s2 := s1.drop ((s1.takeWhile (fun c => c ≠ '>')).length)
    if s2.head? = some '>' then
      let s3 := s2.drop 1
      let g1 := s3.takeWhile (fun c => c ≠ '<')
      if g1 ≠ [] then
        let s4 := s3.drop g1.length
        if ("<SPAN".toList).isPrefixOf s4 then
          let s5 := s4.drop 5
          let s6 := s5.drop ((s5.takeWhile (fun c => c ≠ '>')).length)
          if s6.head? = some '>' then
            let s7 := s6.drop 1
            let s8 := s7.drop ((s7.takeWhile pyIsSpace).length)
            if s8.head? = some '(' then
              let s9 := s8.drop 1
              let g2 := s9.takeWhile (fun c => c ≠ ')')
              if g2 ≠ [] then
                let s10 := s9.drop g2.length
                if (")</SPAN></B>".toList).isPrefixOf s10 then
                  let s11 := s10.drop 12
                  let s12 := if s11.head? = some ':' then s11.drop 1 else s11
                  if ("</FONT>".toList).isPrefixOf s12 then some (g1, g2) else none
                else none
              else none
            else none
          else none
        else none
      else none
    else none
  else none

/-- `re.search` with one of the two span header patterns: leftmost
position at which `spanHeadAt` succeeds. -/
def spanHeadScan (requireB : Bool) : List Char → Option (List Char × List Char)
  | [] => none
  | c :: rest =>
    match spanHeadAt requireB (c :: rest) with
    | some r => some r
    | none => spanHeadScan requireB rest

/-- Group scanner for the content pattern
`<FONT[^>]*>([^<]*(?:<[^/][^>]*>[^<]*)*?)</FONT>`: after the opening
tag, text runs and non-closing tags are consumed lazily until a
`</FONT>`; any other closing tag aborts the match.  Returns the group
length. -/
def spanGroupGo : Nat → Nat → List Char → Option Nat
  | 0, _, _ => none
  | fuel + 1, acc, s =>
    let t := s.takeWhile (fun c => c ≠ '<')
    let s2 := s.drop t.length
    if ("</FONT>".toList).isPrefixOf s2 then some (acc + t.length)
    else
      match s2 with
      | '<' :: c :: r =>
        if c ≠ '/' then
          let tr := r.takeWhile (fun x => x ≠ '>')
          match r.drop tr.length with
          | '>' :: r2 => spanGroupGo fuel (acc + t.length + 2 + tr.length + 1) r2
          | _ => none
        else none
      | _ => none

/-- Worker for `spanFontFindAll`. -/
def spanFontGo : Nat → List Char → List (List Char)
  | 0, _ => []
  | _ + 1, [] => []
  | fuel + 1, c :: rest =>
    if ("<FONT".toList).isPrefixOf (c :: rest) then
      let s1 := (c :: rest).drop 5
      let s2 := s1.drop ((s1.takeWhile (fun x => x ≠ '>')).length)
      if s2.head? = some '>' then
        let s3 := s2.drop 1
        match spanGroupGo s3.length 0 s3 with
        | some g => s3.take g :: spanFontGo fuel (s3.drop (g + 7))
        | none => spanFontGo fuel rest
      else spanFontGo fuel rest
    else spanFontGo fuel rest

/-- Python `re.findall(r'<FONT[^>]*>([^<]*(?:<[^/][^>]*>[^<]*)*?)</FONT>', s, re.DOTALL)`. -/
def spanFontFindAll (l : List Char) : List (List Char) := spanFontGo l.length l

/-- The selection loop of `SpanBasedParser._extract_message_content`
(`aim_parser.py` lines 248-263): the first `<FONT>` group whose
tag-stripped text is non-empty, not a lone colon, parenthesis-free,
does not contain a raw `SPAN`, and is longer than one character is
normalized and returned; otherwise the empty string. -/
def pickSpanContent : List (List Char) → List Char
  | [] => []
  | m :: rest =>
    let cleanText := pyStrip (stripTags m)
    if cleanText ≠ [] ∧ cleanText ≠ [':'] ∧ ¬ '(' ∈ cleanText ∧ ¬ ')' ∈ cleanText ∧
        hasSubstr m ("SPAN".toList) = false ∧ 1 < cleanText.length then
      normalizeContent cleanText
    else pickSpanContent rest

/-- `SpanBasedParser._extract_message_content` (`aim_parser.py` lines
240-265). -/
def extractMessageContent (mh : List Char) : List Char :=
  pickSpanContent (spanFontFindAll mh)

/-- The non-sign-off part of `SpanBasedParser._process_span_message`
(`aim_parser.py` lines 210-238): pattern (a) is tried first, then
pattern (b); the slice is dropped when neither matches or the
extracted content is empty. -/
def spanSenderPart (mh : List Char) : List Message :=
  match
    (match spanHeadScan true mh with
     | some r => some r
     | none => spanHeadScan false mh) with
  | none => []
  | some (sender, ts) =>
    if extractMessageContent mh ≠ [] then
      [⟨pyStrip sender, pyStrip ts, extractMessageContent mh, false⟩]
    else []

/-- `SpanBasedParser._process_span_message` (`aim_parser.py` lines
196-238). -/
def processSpanMessage (mh : List Char) : List Message :=
  if hasSubstr mh signOffLit then
    match signOffSearch mh with
    | some g => [⟨"System".toList, [], pyStrip g, true⟩]
    | none => spanSenderPart mh
  else spanSenderPart mh

/-- Messages contributed by one wrapper-delimited piece of the SPAN
dialect (`aim_parser.py` lines 165-172): a piece whose wrapper is
unterminated is skipped. -/
def spanPartMessages (part : List Char) : List Message :=
  match findSpanEnd part with
  | none => []
  | some e => processSpanMessage (part.take e)

/-- `SpanBasedParser.parse` (`aim_parser.py` lines 157-173): split on
the wrapper opener, drop the text before the first wrapper, process
each piece. -/
def spanParse (doc : List Char) : List Message :=
  ((pySplit wrapLit doc).drop 1).foldl (fun acc part => acc ++ spanPartMessages part) []

/-- `SpanBasedParser.can_parse` (`aim_parser.py` lines 153-155). -/
def spanCanParse (doc : List Char) : Bool := hasSubstr doc wrapLit

/-- `CommentBasedParser.can_parse` (`aim_parser.py` lines 52-54). -/
def commentCanParse (doc : List Char) : Bool :=
  hasSubstr doc ("<!-- (".toList) && hasSubstr doc (")-->".toList)

/-- The two concrete dialect parsers the factory can return. -/
inductive ParserKind where
  | span : ParserKind
  | comment : ParserKind
deriving DecidableEq, Repr

/-- `AIMParserFactory.get_parser` (`aim_parser.py` lines 271-284):
try `SpanBasedParser` then `CommentBasedParser` via `can_parse`,
falling back to `CommentBasedParser`. -/
def getParserKind (doc : List Char) : ParserKind :=
  if spanCanParse doc then ParserKind.span
  else if commentCanParse doc then ParserKind.comment
  else ParserKind.comment

/-- `AIMParser.parse` (`aim_parser.py` lines 287-296): dispatch to the
parser selected by the factory. -/
def aimParse (doc : List Char) : List Message :=
  match getParserKind doc with
  | ParserKind.span => spanParse doc
  | ParserKind.comment => commentParse doc

/-- A Python `datetime.time` value as produced by
`MarkdownConverter._parse_timestamp`. -/
structure PyTime where
  hour : Nat
  minute : Nat
  second : Nat
deriving DecidableEq, Repr

/-- `MarkdownConverter._parse_timestamp` (`markdown_converter.py`
lines 122-133).  The source gates with the prefix regexes
`\d{1,2}:\d{2}:\d{2} [AP]M` / `\d{1,2}:\d{2} [AP]M` and then calls
`datetime.strptime` (`%I:%M:%S %p` / `%I:%M %p`), whose combined
effect on the stripped string is the strict full-string parse
implemented here: an hour field `1`-`9`, `01`-`09` or `10`-`12`,
two-digit minutes (and seconds) at most 59, one space, and an
upper-case `AM` or `PM` ending the string. -/
def pyParseTimestamp (raw : List Char) : Option PyTime :=
  let s := pyStrip raw
  let hs := s.takeWhile Char.isDigit
  let h := digitsVal hs
  let hourOk := (hs.length = 1 ∧ 1 ≤ h) ∨
    (hs.length = 2 ∧ ((hs.head? = some '0' ∧ 1 ≤ h) ∨ (10 ≤ h ∧ h ≤ 12)))
  if ¬ hourOk then none
  else
    match s.drop hs.length with
    | ':' :: r1 =>
      let ms := r1.takeWhile Char.isDigit
      if ms.length = 2 ∧ digitsVal ms ≤ 59 then
        let afterM := r1.drop ms.length
        let finish := fun (sec : Nat) (r : List Char) =>
          match r with
          | ' ' :: a :: 'M' :: [] =>
            if a = 'A' ∨ a = 'P' then
              let h24 := if a = 'P' then (if h = 12 then 12 else h + 12)
                         else (if h = 12 then 0 else h)
              some (PyTime.mk h24 (digitsVal ms) sec)
            else none
          | _ => none
        match afterM with
        | ':' :: r2 =>
          let ss := r2.takeWhile Char.isDigit
          if ss.length = 2 ∧ digitsVal ss ≤ 59 then
            finish (digitsVal ss) (r2.drop ss.length)
          else none
        | r => finish 0 r
      else none
    | _ => none

/-- `MarkdownConverter._time_diff_minutes` (`markdown_converter.py`
lines 135-146), with the float arithmetic carried out exactly over
`ℚ`. -/
def timeDiffMinutes (t1 t2 : PyTime) : ℚ :=
  let m1 : ℚ := t1.hour * 60 + t1.minute + (t1.second : ℚ) / 60
  let m2 : ℚ := t2.hour * 60 + t2.minute + (t2.second : ℚ) / 60
  let diff := |m2 - m1|
  if 12 * 60 < diff then 24 * 60 - diff else diff

/-- The characters `MarkdownConverter` escapes (`markdown_converter.py`
line 10); the fourth entry is the backquote character. -/
def escapeList : List Char := ['*', '_', Char.ofNat 96, '[', ']']

/-- Python `text.replace(c, '\' + c)` for a single character. -/
def pyReplaceChar (c : Char) (l : List Char) : List Char :=
  (l.map (fun x => if x = c then ['\\', c] else [x])).flatten

/-- `MarkdownConverter._escape_markdown` (`markdown_converter.py`
lines 148-152): sequential `str.replace` over `escapeList`. -/
def escapeMarkdown (text : List Char) : List Char :=
  escapeList.foldl (fun t c => pyReplaceChar c t) text

/-- `flush_group` inside `MarkdownConverter.convert`
(`markdown_converter.py` lines 48-66): header line for the first
message of the group, one quoted line per newline-split content line,
then an empty line. -/
def flushGroup (group : List Message) (output : List (List Char)) : List (List Char) :=
  match group with
  | [] => output
  | first :: _ =>
    let header := "**".toList ++ first.sender ++ "** (".toList ++ first.timestamp ++ "):".toList
    let quoted := (group.map (fun msg =>
      (pySplit ['\n'] msg.content).map (fun line => "> ".toList ++ escapeMarkdown line))).flatten
    output ++ header :: quoted ++ [[]]

/-- The message loop of `MarkdownConverter.convert`
(`markdown_converter.py` lines 68-118) with the default arguments
(`conversation_date=None`, `group_consecutive=True`): a message with
`is_system_message` set makes the source read `message.is_auto_response`
(line 72), an attribute the parser's `Message` record does not carry,
so Python raises `AttributeError`; that raise is the `Except.error`
branch.  `shouldStartGroup` is the `should_start_new_group` local of
the source (`current_time` is recomputed where the source reuses the
local; the computation is pure). -/
def shouldStartGroup (prevSender : Option (List Char)) (prevTs : Option PyTime)
    (msg : Message) : Bool :=
  if prevSender ≠ some msg.sender then true
  else if prevTs = none ∨ pyParseTimestamp msg.timestamp = none then true
  else
    match prevTs, pyParseTimestamp msg.timestamp with
    | some t1, some t2 => decide (2 < timeDiffMinutes t1 t2)
    | _, _ => true

def convertGo (prevSender : Option (List Char)) (prevTs : Option PyTime)
    (group : List Message) (output : List (List Char)) :
    List Message → Except (List Char) (List (List Char))
  | [] => Except.ok (flushGroup group output)
  | msg :: rest =>
    if msg.is_system_message then
      Except.error ("AttributeError: 'Message' object has no attribute 'is_auto_response'".toList)
    else if shouldStartGroup prevSender prevTs msg then
      convertGo (some msg.sender) (pyParseTimestamp msg.timestamp) [msg]
        (flushGroup group output) rest
    else
      convertGo (some msg.sender) (pyParseTimestamp msg.timestamp) (group ++ [msg]) output rest

/-- `MarkdownConverter.convert` (`markdown_converter.py` lines 14-120)
with the default arguments: no date, so no frontmatter or header
lines; an empty message list short-circuits to the empty string. -/
def convert (messages : List Message) : Except (List Char) (List Char) :=
  match messages with
  | [] => Except.ok []
  | _ =>
    (convertGo none none [] [] messages).map
      (fun out => (out.intersperse ['\n']).flatten)

instance {ε α : Type} [DecidableEq ε] [DecidableEq α] : DecidableEq (Except ε α)
  | Except.ok a, Except.ok b => decidable_of_iff (a = b) (by simp)
  | Except.ok _, Except.error _ => isFalse (by simp)
  | Except.error _, Except.ok _ => isFalse (by simp)
  | Except.error e, Except.error f => decidable_of_iff (e = f) (by simp)

/-! ### Structural lemmas about the parsers -/

theorem foldlAppendEqFlatten {α β : Type} (f : α → List β) (l : List α) :
    ∀ acc : List β, l.foldl (fun a x => a ++ f x) acc = acc ++ (l.map f).flatten := by
  induction l with
  | nil => intro acc; simp
  | cons x t ih => intro acc; simp [ih]

theorem hasSubstrConsOf {rest n : List Char} (c : Char) (h : hasSubstr rest n = true) :
    hasSubstr (c :: rest) n = true := by
  rw [hasSubstr]
  split
  · rfl
  · exact h

theorem hasSubstrOfPrefixDrop {n : List Char} :
    ∀ (l : List Char) (i : Nat), n.isPrefixOf (l.drop i) → hasSubstr l n = true := by
  intro l
  induction l with
  | nil => intro i h; simp only [List.drop_nil] at h; simp [hasSubstr, h]
  | cons c t ih =>
    intro i h
    cases i with
    | zero =>
      simp only [List.drop_zero] at h
      rw [hasSubstr, if_pos h]
    | succ j => exact hasSubstrConsOf c (ih j h)

theorem lastValidOk {ok : Nat → Bool} :
    ∀ {n q : Nat}, lastValid ok n = some q → ok q = true := by
  intro n
  induction n with
  | zero =>
    intro q h
    unfold lastValid at h
    split at h
    · simp only [Option.some.injEq] at h; subst h; assumption
    · simp at h
  | succ m ih =>
    intro q h
    unfold lastValid at h
    split at h
    · simp only [Option.some.injEq] at h; subst h; assumption
    · exact ih h

theorem signOffAtHasSubstr {s g : List Char} (h : signOffAt s = some g) :
    hasSubstr s signOffLit = true := by
  simp only [signOffAt] at h
  split at h
  · simp at h
  · rename_i q hq
    have hok := lastValidOk hq
    simp only [Bool.and_eq_true, decide_eq_true_eq] at hok
    exact hasSubstrOfPrefixDrop s q hok.1.2

theorem signOffSearchHasSubstr :
    ∀ {l g : List Char}, signOffSearch l = some g → hasSubstr l signOffLit = true := by
  intro l
  induction l with
  | nil => intro g h; simp [signOffSearch] at h
  | cons c t ih =>
    intro g h
    rw [signOffSearch] at h
    split at h
    · rename_i g' hat
      exact signOffAtHasSubstr hat
    · exact hasSubstrConsOf c (ih h)

theorem commentParseAuxEq :
    ∀ (lines : List (List Char)) (cur : List Char) (msgs : List Message),
    commentParseAux cur msgs lines =
      msgs ++ ((commentBlocksAux cur lines).map processMessageLine).flatten := by
  intro lines
  induction lines with
  | nil =>
    intro cur msgs
    by_cases hc : cur = [] <;> simp [commentParseAux, commentBlocksAux, hc]
  | cons line rest ih =>
    intro cur msgs
    by_cases h1 : pyStrip line = []
    · simp [commentParseAux, commentBlocksAux, h1, ih]
    · by_cases h2 : hasTimestampLine line = true ∧ cur ≠ []
      · simp [commentParseAux, commentBlocksAux, h1, h2, ih]
      · simp [commentParseAux, commentBlocksAux, h1, h2, ih]

theorem commentParseEqBlocks (doc : List Char) :
    commentParse doc = ((commentBlocks doc).map processMessageLine).flatten := by
  unfold commentParse commentBlocks
  simpa using commentParseAuxEq (pySplit ("<BR>".toList) doc) [] []

theorem spanParseEqFlatten (doc : List Char) :
    spanParse doc = (((pySplit wrapLit doc).drop 1).map spanPartMessages).flatten := by
  unfold spanParse
  simpa using foldlAppendEqFlatten spanPartMessages ((pySplit wrapLit doc).drop 1) []

/-! ### The system-message invariant -/

theorem memCommentSenderPartNotSys {line : List Char} {m : Message}
    (h : m ∈ commentSenderPart line) : m.is_system_message = false := by
  unfold commentSenderPart at h
  split at h
  · simp at h
  · split at h
    · simp at h
    · split at h
      · simp at h; rw [h]
      · simp at h

theorem memProcessMessageLineInv {line : List Char} {m : Message}
    (h : m ∈ processMessageLine line) :
    m.is_system_message = true → m.sender = "System".toList ∧ m.timestamp = [] := by
  unfold processMessageLine at h
  split at h
  · split at h
    · simp at h; rw [h]; intro _; exact ⟨rfl, rfl⟩
    · intro hs; simp [memCommentSenderPartNotSys h] at hs
  · intro hs; simp [memCommentSenderPartNotSys h] at hs

theorem memSpanSenderPartNotSys {mh : List Char} {m : Message}
    (h : m ∈ spanSenderPart mh) : m.is_system_message = false := by
  unfold spanSenderPart at h
  split at h
  · simp at h
  · split at h
    · simp at h; rw [h]
    · simp at h

theorem memProcessSpanMessageInv {mh : List Char} {m : Message}
    (h : m ∈ processSpanMessage mh) :
    m.is_system_message = true → m.sender = "System".toList ∧ m.timestamp = [] := by
  unfold processSpanMessage at h
  split at h
  · split at h
    · simp at h; rw [h]; intro _; exact ⟨rfl, rfl⟩
    · intro hs; simp [memSpanSenderPartNotSys h] at hs
  · intro hs; simp [memSpanSenderPartNotSys h] at hs

theorem memSpanPartMessagesInv {part : List Char} {m : Message}
    (h : m ∈ spanPartMessages part) :
    m.is_system_message = true → m.sender = "System".toList ∧ m.timestamp = [] := by
  unfold spanPartMessages at h
  split at h
  · simp at h
  · exact memProcessSpanMessageInv h

theorem memCommentParseInv {doc : List Char} {m : Message} (h : m ∈ commentParse doc) :
    m.is_system_message = true → m.sender = "System".toList ∧ m.timestamp = [] := by
  rw [commentParseEqBlocks, List.mem_flatten] at h
  obtain ⟨l, hl, hm⟩ := h
  rw [List.mem_map] at hl
  obtain ⟨block, _, rfl⟩ := hl
  exact memProcessMessageLineInv hm

theorem memSpanParseInv {doc : List Char} {m : Message} (h : m ∈ spanParse doc) :
    m.is_system_message = true → m.sender = "System".toList ∧ m.timestamp = [] := by
  rw [spanParseEqFlatten, List.mem_flatten] at h
  obtain ⟨l, hl, hm⟩ := h
  rw [List.mem_map] at hl
  obtain ⟨part, _, rfl⟩ := hl
  exact memSpanPartMessagesInv hm

theorem memAimParseInv {doc : List Char} {m : Message} (h : m ∈ aimParse doc) :
    m.is_system_message = true → m.sender = "System".toList ∧ m.timestamp = [] := by
  unfold aimParse at h
  rcases hk : getParserKind doc <;> rw [hk] at h
  · exact memSpanParseInv h
  · exact memCommentParseInv h

/-! ### Normalization lemmas (idempotence machinery) -/

theorem flushNLFalse (run : List Char) : flushNL run false = run.reverse := by
  unfold flushNL
  split
  · rename_i h; rw [h]; rfl
  · simp

theorem nlNotMemFlushNL {run : List Char} {sawNL : Bool}
    (hrun : sawNL = false → '\n' ∉ run) : '\n' ∉ flushNL run sawNL := by
  cases sawNL with
  | true =>
    unfold flushNL
    split
    · simp
    · rw [if_pos rfl]
      intro hm
      rw [List.mem_singleton] at hm
      exact absurd hm (by decide)
  | false =>
    rw [flushNLFalse, List.mem_reverse]
    exact hrun rfl

theorem nlNotMemCollapseNLAux :
    ∀ (l run : List Char) (sawNL : Bool), (sawNL = false → '\n' ∉ run) →
      '\n' ∉ collapseNLAux run sawNL l := by
  intro l
  induction l with
  | nil => intro run sawNL hrun; exact nlNotMemFlushNL hrun
  | cons c rest ih =>
    intro run sawNL hrun
    rw [collapseNLAux]
    split
    · apply ih
      intro hfalse
      rw [Bool.or_eq_false_iff] at hfalse
      intro hm
      rcases List.mem_cons.mp hm with h | h
      · rw [h] at hfalse
        simp at hfalse
      · exact hrun hfalse.1 h
    · intro hm
      rcases List.mem_append.mp hm with h | h
      · exact nlNotMemFlushNL hrun h
      · rcases List.mem_cons.mp h with h2 | h2
        · rename_i hc
          rw [← h2] at hc
          exact hc (by decide)
        · exact ih [] false (fun _ => List.not_mem_nil _) h2

theorem nlNotMemCollapseNL (l : List Char) : '\n' ∉ collapseNL l :=
  nlNotMemCollapseNLAux l [] false (fun _ => List.not_mem_nil _)

theorem collapseNLAuxOfNoNL :
    ∀ (l run : List Char), '\n' ∉ l → collapseNLAux run false l = run.reverse ++ l := by
  intro l
  induction l with
  | nil => intro run _; rw [collapseNLAux, flushNLFalse]; simp
  | cons c rest ih =>
    intro run h
    have hc : c ≠ '\n' := by
      intro he
      exact h (by rw [he]; exact List.mem_cons_self _ _)
    have hrest : '\n' ∉ rest := fun hm => h (List.mem_cons_of_mem c hm)
    rw [collapseNLAux]
    split
    · have hor : (false || decide (c = '\n')) = false := by simp [hc]
      rw [hor, ih (c :: run) hrest]
      simp
    · rw [flushNLFalse, ih [] hrest]
      simp

theorem collapseNLOfNoNL {l : List Char} (h : '\n' ∉ l) : collapseNL l = l := by
  unfold collapseNL
  rw [collapseNLAuxOfNoNL l [] h]
  simp

theorem memCollapseSpacesAux :
    ∀ (l : List Char) (n : Nat) {c : Char}, c ∈ collapseSpacesAux n l → c = ' ' ∨ c ∈ l := by
  intro l
  induction l with
  | nil =>
    intro n c h
    rw [collapseSpacesAux] at h
    exact Or.inl (List.eq_of_mem_replicate h)
  | cons d rest ih =>
    intro n c h
    rw [collapseSpacesAux] at h
    split at h
    · rcases ih (n + 1) h with h1 | h1
      · exact Or.inl h1
      · exact Or.inr (List.mem_cons_of_mem d h1)
    · rcases List.mem_append.mp h with h1 | h1
      · exact Or.inl (List.eq_of_mem_replicate h1)
      · rcases List.mem_cons.mp h1 with h2 | h2
        · exact Or.inr (by rw [h2]; exact List.mem_cons_self d rest)
        · rcases ih 0 h2 with h3 | h3
          · exact Or.inl h3
          · exact Or.inr (List.mem_cons_of_mem d h3)

theorem noTripleConsIff (c : Char) (l : List Char) :
    noTriple (c :: l) = (!(c = ' ' && ([' ', ' ']).isPrefixOf l) && noTriple l) := rfl

theorem noTripleTail {c : Char} {l : List Char} (h : noTriple (c :: l) = true) :
    noTriple l = true := by
  rw [noTripleConsIff, Bool.and_eq_true] at h
  exact h.2

theorem noTripleAppendRight :
    ∀ (xs ys : List Char), noTriple (xs ++ ys) = true → noTriple ys = true := by
  intro xs
  induction xs with
  | nil => intro ys h; exact h
  | cons c t ih => intro ys h; exact ih ys (noTripleTail h)

theorem noTripleAppendLeft :
    ∀ (xs ys : List Char), noTriple (xs ++ ys) = true → noTriple xs = true := by
  intro xs
  induction xs with
  | nil => intro ys _; rfl
  | cons c t ih =>
    intro ys h
    rw [List.cons_append, noTripleConsIff, Bool.and_eq_true] at h
    rw [noTripleConsIff, Bool.and_eq_true]
    refine ⟨?_, ih ys h.2⟩
    have h1 := h.1
    by_cases hp : ([' ', ' ']).isPrefixOf t = true
    · have hp2 : ([' ', ' ']).isPrefixOf (t ++ ys) = true := by
        rw [List.isPrefixOf_iff_prefix] at hp ⊢
        exact hp.trans (List.prefix_append t ys)
      rw [hp2] at h1
      rw [hp]
      simpa using h1
    · simp only [Bool.not_eq_true] at hp
      rw [hp]
      simp

theorem noTripleInfix {la l : List Char} (hinf : la <:+: l) (h : noTriple l = true) :
    noTriple la = true := by
  rcases hinf with ⟨s, t, rfl⟩
  rw [List.append_assoc] at h
  exact noTripleAppendLeft la t (noTripleAppendRight s (la ++ t) h)

theorem noTripleAppendFlush :
    ∀ (k : Nat), k ≤ 2 → ∀ {c : Char}, ¬ c = ' ' → ∀ {tail : List Char},
      noTriple tail = true → noTriple (List.replicate k ' ' ++ c :: tail) = true := by
  intro k hk c hc tail ht
  have hnp : ∀ u : List Char, ([' ', ' ']).isPrefixOf (c :: u) = false := by
    intro u
    cases hp : ([' ', ' ']).isPrefixOf (c :: u)
    · rfl
    · exfalso
      obtain ⟨v, hv⟩ := List.isPrefixOf_iff_prefix.mp hp
      rw [List.cons_append] at hv
      injection hv with h1 _
      exact hc h1.symm
  have hcc : decide (c = ' ') = false := by simp [hc]
  interval_cases k
  · rw [List.replicate, List.nil_append, noTripleConsIff, hcc]
    simp [ht]
  · show noTriple (' ' :: c :: tail) = true
    rw [noTripleConsIff, hnp, noTripleConsIff, hcc]
    simp [ht]
  · show noTriple (' ' :: ' ' :: c :: tail) = true
    rw [noTripleConsIff]
    have hnp2 : ([' ', ' ']).isPrefixOf (' ' :: c :: tail) = false := by
      cases hp : ([' ', ' ']).isPrefixOf (' ' :: c :: tail)
      · rfl
      · exfalso
        obtain ⟨v, hv⟩ := List.isPrefixOf_iff_prefix.mp hp
        simp at hv
        exact hc hv.1.symm
    rw [hnp2, noTripleConsIff, hnp, noTripleConsIff, hcc]
    simp [ht]

theorem noTripleCollapseSpacesAux :
    ∀ (l : List Char) (n : Nat), noTriple (collapseSpacesAux n l) = true := by
  intro l
  induction l with
  | nil =>
    intro n
    rw [collapseSpacesAux]
    unfold spaceFlush
    split
    · decide
    · rename_i h
      interval_cases n <;> decide
  | cons c rest ih =>
    intro n
    rw [collapseSpacesAux]
    split
    · exact ih (n + 1)
    · rename_i hc
      unfold spaceFlush
      apply noTripleAppendFlush _ (by split <;> omega) hc (ih 0)

theorem noTripleCollapseSpaces (l : List Char) : noTriple (collapseSpaces l) = true :=
  noTripleCollapseSpacesAux l 0

theorem collapseSpacesAuxOfNoTriple :
    ∀ (l : List Char) (n : Nat), n ≤ 2 →
      noTriple (List.replicate n ' ' ++ l) = true →
      collapseSpacesAux n l = List.replicate n ' ' ++ l := by
  intro l
  induction l with
  | nil =>
    intro n hn _
    rw [collapseSpacesAux]
    unfold spaceFlush
    rw [if_neg (by omega)]
    simp
  | cons c rest ih =>
    intro n hn hnt
    rw [collapseSpacesAux]
    split
    · rename_i hc
      subst hc
      have hn1 : n + 1 ≤ 2 := by
        rcases Nat.lt_or_ge n 2 with h | h
        · omega
        · exfalso
          have hn2 : n = 2 := by omega
          subst hn2
          have hpre : ([' ', ' ']).isPrefixOf (' ' :: ' ' :: rest) = true :=
            List.isPrefixOf_iff_prefix.mpr ⟨rest, rfl⟩
          have : List.replicate 2 ' ' ++ ' ' :: rest = ' ' :: ' ' :: ' ' :: rest := rfl
          rw [this, noTripleConsIff, hpre] at hnt
          simp at hnt
      have heq : List.replicate n ' ' ++ ' ' :: rest = List.replicate (n + 1) ' ' ++ rest := by
        rw [List.replicate_succ']
        simp
      rw [ih (n + 1) hn1 (by rw [← heq]; exact hnt), heq]
    · rename_i hc
      have hrest : noTriple rest = true :=
        noTripleTail (noTripleAppendRight (List.replicate n ' ') (c :: rest) hnt)
      unfold spaceFlush
      rw [if_neg (by omega)]
      have h0 := ih 0 (by omega) (by simpa using hrest)
      simp at h0
      rw [h0]

theorem collapseSpacesOfNoTriple {l : List Char} (h : noTriple l = true) :
    collapseSpaces l = l := by
  unfold collapseSpaces
  have := collapseSpacesAuxOfNoTriple l 0 (by omega) (by simpa using h)
  simpa using this

theorem dropWhileHeadFalse (p : Char → Bool) :
    ∀ (l : List Char) {a : Char} {t : List Char}, l.dropWhile p = a :: t → p a = false := by
  intro l
  induction l with
  | nil => intro a t h; simp at h
  | cons c r ih =>
    intro a t h
    rw [List.dropWhile_cons] at h
    split at h
    · exact ih h
    · rename_i hp
      injection h with h1 _
      rw [← h1]
      exact Bool.eq_false_iff.mpr hp

theorem dropWhileIdem (p : Char → Bool) (l : List Char) :
    (l.dropWhile p).dropWhile p = l.dropWhile p := by
  cases hx : l.dropWhile p with
  | nil => rfl
  | cons a t =>
    rw [List.dropWhile_cons, dropWhileHeadFalse p l hx]
    simp

theorem dropWhileEqSelfOfPrefix {p : Char → Bool} :
    ∀ {x y : List Char}, y <+: x → x.dropWhile p = x → y.dropWhile p = y := by
  intro x y hyx hx
  cases y with
  | nil => rfl
  | cons c t =>
    obtain ⟨s, hs⟩ := hyx
    subst hs
    rw [List.cons_append, List.dropWhile_cons] at hx
    by_cases hp : p c = true
    · rw [if_pos hp] at hx
      have hle := (List.dropWhile_suffix (l := t ++ s) p).length_le
      rw [hx] at hle
      simp at hle
    · rw [List.dropWhile_cons, if_neg hp]

theorem pyStripInfix (l : List Char) : pyStrip l <:+: l := by
  have h1 : trimL l <:+ l := List.dropWhile_suffix _
  have h2 : trimR (trimL l) <+: trimL l := by
    unfold trimR
    have h := (List.dropWhile_suffix (l := (trimL l).reverse) pyIsSpace).reverse
    rwa [List.reverse_reverse] at h
  exact h2.isInfix.trans h1.isInfix

theorem trimRIdem (l : List Char) : trimR (trimR l) = trimR l := by
  unfold trimR
  rw [List.reverse_reverse, dropWhileIdem]

theorem pyStripIdem (l : List Char) : pyStrip (pyStrip l) = pyStrip l := by
  have h1 : (trimL l).dropWhile pyIsSpace = trimL l := dropWhileIdem pyIsSpace l
  have hpre : trimR (trimL l) <+: trimL l := by
    unfold trimR
    have h := (List.dropWhile_suffix (l := (trimL l).reverse) pyIsSpace).reverse
    rwa [List.reverse_reverse] at h
  have h2 : trimL (trimR (trimL l)) = trimR (trimL l) :=
    dropWhileEqSelfOfPrefix hpre h1
  show trimR (trimL (trimR (trimL l))) = trimR (trimL l)
  rw [h2, trimRIdem]

theorem normalizeContentFix {s : List Char}
    (h : hasSubstr (normalizeContent s) ['&'] = false) :
    normalizeContent (normalizeContent s) = normalizeContent s := by
  have hunesc : unescape (normalizeContent s) = normalizeContent s := by
    unfold unescape
    rw [h]
    simp
  have hnl : '\n' ∉ normalizeContent s := by
    unfold normalizeContent
    intro hm
    have hm2 := (pyStripInfix _).subset hm
    rcases memCollapseSpacesAux _ 0 hm2 with he | he
    · exact absurd he (by decide)
    · exact nlNotMemCollapseNL _ he
  have hnt : noTriple (normalizeContent s) = true := by
    unfold normalizeContent
    exact noTripleInfix (pyStripInfix _) (noTripleCollapseSpaces _)
  conv_lhs => rw [normalizeContent]
  rw [hunesc, collapseNLOfNoNL hnl, collapseSpacesOfNoTriple hnt]
  conv_lhs => rw [show normalizeContent s = pyStrip (collapseSpaces (collapseNL (unescape s))) from rfl]
  rw [pyStripIdem]
  rfl

/-! ### Converter lemmas -/

theorem convertGoErrorOfSys :
    ∀ (msgs : List Message) (ps : Option (List Char)) (pt : Option PyTime)
      (g : List Message) (out : List (List Char)),
      (∃ m ∈ msgs, m.is_system_message = true) →
      ∃ e, convertGo ps pt g out msgs = Except.error e := by
  intro msgs
  induction msgs with
  | nil =>
    intro ps pt g out h
    obtain ⟨m, hm, _⟩ := h
    exact absurd hm (List.not_mem_nil m)
  | cons msg rest ih =>
    intro ps pt g out h
    rw [convertGo]
    by_cases hs : msg.is_system_message = true
    · rw [if_pos hs]
      exact ⟨_, rfl⟩
    · rw [if_neg hs]
      have hrest : ∃ m ∈ rest, m.is_system_message = true := by
        obtain ⟨m, hm, hmsys⟩ := h
        rcases List.mem_cons.mp hm with heq | hm2
        · exact absurd (heq ▸ hmsys) hs
        · exact ⟨m, hm2, hmsys⟩
      split
      · exact ih _ _ _ _ hrest
      · exact ih _ _ _ _ hrest

theorem convertGoOkOfRegular :
    ∀ (msgs : List Message) (ps : Option (List Char)) (pt : Option PyTime)
      (g : List Message) (out : List (List Char)),
      (∀ m ∈ msgs, m.is_system_message = false) →
      ∃ r, convertGo ps pt g out msgs = Except.ok r := by
  intro msgs
  induction msgs with
  | nil => intro ps pt g out _; exact ⟨_, rfl⟩
  | cons msg rest ih =>
    intro ps pt g out h
    rw [convertGo]
    rw [if_neg (by simp [h msg (List.mem_cons_self msg rest)])]
    have hr : ∀ m ∈ rest, m.is_system_message = false :=
      fun m hm => h m (List.mem_cons_of_mem msg hm)
    split
    · exact ih _ _ _ _ hr
    · exact ih _ _ _ _ hr

/-! ### The claims -/

/-- Claim C1: the spec requires a dialect-independent session-concluded
scan producing `sender="System"`, `is_session_concluded=true` Messages
for every `<HR>…<HR>`-delimited `Session concluded at TIME` marker, and
the repository's own tests (tests/test_aim_parser.py:223-293) assert
it, but `AIMParser.parse` performs no such scan and the `Message`
dataclass has no `is_session_concluded` field: on the test document
below (one SPAN-dialect message followed by a session-concluded
marker), parse returns only the regular message. -/
theorem c1_session_concluded_not_extracted :
    hasSubstr ("<SPAN STYLE=\"background-color: #ffffff;\"><B><FONT COLOR=\"#0000ff\">Bob<SPAN STYLE=\"font-size: xx-small;\"> (9:51:32 PM)</SPAN></B></FONT><FONT COLOR=\"#0000ff\">: </FONT><FONT>bye love</FONT></SPAN><BR></BODY><HR><B>Session concluded at 9:52:55 PM</B><HR></HTML>".toList)
      ("Session concluded at".toList) = true ∧
    aimParse ("<SPAN STYLE=\"background-color: #ffffff;\"><B><FONT COLOR=\"#0000ff\">Bob<SPAN STYLE=\"font-size: xx-small;\"> (9:51:32 PM)</SPAN></B></FONT><FONT COLOR=\"#0000ff\">: </FONT><FONT>bye love</FONT></SPAN><BR></BODY><HR><B>Session concluded at 9:52:55 PM</B><HR></HTML>".toList) =
      [⟨"Bob".toList, "9:51:32 PM".toList, "bye love".toList, false⟩] := by
  decide

/-- Claim C2: the spec and the repository's tests
(tests/test_aim_parser.py:156-219) require an `Auto response from X`
header to yield sender `X` with `is_auto_response=true` and
`is_system_message=true`, but the code never strips the prefix and the
`Message` dataclass has no `is_auto_response` field: on the test input
below the emitted Message keeps the full `Auto response from Bob`
sender and is not a system message. -/
theorem c2_auto_response_not_stripped :
    aimParse ("<B><FONT COLOR=\"#0000ff\">Auto response from Bob<!-- (1:04:11 AM)--></B></FONT>: <FONT>sleeping</FONT><BR>".toList) =
    [⟨"Auto response from Bob".toList, "1:04:11 AM".toList, "sleeping".toList, false⟩] := by
  decide

/-- Claim C3 counterexample: a comment-dialect document with a
sender/timestamp header but no content-bearing `<FONT>` container after
it parses to the empty message list, so parse does not return one
Message per header present. -/
theorem c3_counterexample :
    (headerSearch ("<B><FONT>A<!-- (1:02:03 PM)--></B></FONT>".toList)).isSome = true ∧
    getParserKind ("<B><FONT>A<!-- (1:02:03 PM)--></B></FONT>".toList) = ParserKind.comment ∧
    aimParse ("<B><FONT>A<!-- (1:02:03 PM)--></B></FONT>".toList) = [] := by
  decide

/-- Claim C3 (amended): `CommentBasedParser.parse` yields exactly the
concatenation, in source order, of the messages of its flushed blocks;
and a block that is not a sign-off and whose header matches yields
exactly one Message — with that header's stripped sender and
timestamp, and content the normalization (entities decoded, whitespace
collapsed) of the tag-stripped concatenation of the `<FONT>` containers
after the first `</B>`, leading colon/whitespace dropped — unless that
cleaned content is empty, in which case the block yields nothing. -/
theorem c3_amended :
    (∀ doc : List Char,
      commentParse doc = ((commentBlocks doc).map processMessageLine).flatten) ∧
    (∀ (block s t : List Char) (i : Nat),
      hasSubstr block signOffLit = false →
      headerSearch block = some (s, t) →
      subIndex block ("</B>".toList) = some i →
      processMessageLine block =
        (if pyStrip (commentCombined block i) ≠ [] then
          [⟨pyStrip s, pyStrip t, normalizeContent (commentCombined block i), false⟩]
        else [])) := by
  constructor
  · exact commentParseEqBlocks
  · intro block s t i h1 h2 h3
    unfold processMessageLine commentSenderPart
    rw [h1, h2, h3]
    simp

/-- Witness for the amended claim C3 on a concrete block. -/
theorem c3_amended_witness :
    hasSubstr ("<B><FONT>A<!-- (1:00:00 PM)--></B></FONT>: <FONT>hi</FONT>".toList) signOffLit = false ∧
    headerSearch ("<B><FONT>A<!-- (1:00:00 PM)--></B></FONT>: <FONT>hi</FONT>".toList) =
      some ("A".toList, "1:00:00 PM".toList) ∧
    subIndex ("<B><FONT>A<!-- (1:00:00 PM)--></B></FONT>: <FONT>hi</FONT>".toList) ("</B>".toList) = some 30 ∧
    processMessageLine ("<B><FONT>A<!-- (1:00:00 PM)--></B></FONT>: <FONT>hi</FONT>".toList) =
      [⟨"A".toList, "1:00:00 PM".toList, "hi".toList, false⟩] :=
  ⟨by decide, by decide, by decide,
   (c3_amended.2 _ "A".toList "1:00:00 PM".toList 30 (by decide) (by decide) (by decide)).trans
     (by decide)⟩

/-- Claim C4 counterexample: a block that contains the phrase
`signed off at` but on which the capture pattern
`([^>]+signed off at[^<]+)` fails (here the phrase is flanked by `>`
and `<`) is dropped entirely: parse emits no message at all. -/
theorem c4_counterexample :
    hasSubstr ("<B>signed off at</B><BR>".toList) signOffLit = true ∧
    aimParse ("<B>signed off at</B><BR>".toList) = [] := by
  decide

/-- Claim C4 (amended): in either dialect, every message block on which
the sign-off capture pattern `([^>]+signed off at[^<]+)` succeeds
yields a Message with sender `System`, empty timestamp,
`is_system_message=true`, and content exactly the stripped captured
phrase, in the parse result.  A block on which the capture fails —
even one containing the phrase `signed off at` — falls through to the
regular sender/timestamp processing, which may drop it (the
counterexample) or emit an ordinary non-system Message. -/
theorem c4_amended :
    (∀ (doc block g : List Char),
      block ∈ commentBlocks doc → signOffSearch block = some g →
      (⟨"System".toList, [], pyStrip g, true⟩ : Message) ∈ commentParse doc) ∧
    (∀ (doc part g : List Char) (e : Nat),
      part ∈ (pySplit wrapLit doc).drop 1 → findSpanEnd part = some e →
      signOffSearch (part.take e) = some g →
      (⟨"System".toList, [], pyStrip g, true⟩ : Message) ∈ spanParse doc) ∧
    (∀ line : List Char, signOffSearch line = none →
      processMessageLine line = commentSenderPart line) ∧
    (∀ mh : List Char, signOffSearch mh = none →
      processSpanMessage mh = spanSenderPart mh) := by
  refine ⟨?_, ?_, ?_, ?_⟩
  · intro doc block g hb hg
    rw [commentParseEqBlocks, List.mem_flatten]
    refine ⟨processMessageLine block, List.mem_map.mpr ⟨block, hb, rfl⟩, ?_⟩
    have hsub := signOffSearchHasSubstr hg
    simp [processMessageLine, hsub, hg]
  · intro doc part g e hp hfe hg
    rw [spanParseEqFlatten, List.mem_flatten]
    refine ⟨spanPartMessages part, List.mem_map.mpr ⟨part, hp, rfl⟩, ?_⟩
    unfold spanPartMessages
    rw [hfe]
    have hsub := signOffSearchHasSubstr hg
    simp [processSpanMessage, hsub, hg]
  · intro line h
    unfold processMessageLine
    split
    · rw [h]
    · rfl
  · intro mh h
    unfold processSpanMessage
    split
    · rw [h]
    · rfl

/-- Witness for the amended claim C4: one concrete sign-off block per
dialect, plus a fall-through block that contains the phrase, fails the
capture, and is emitted as a regular non-system Message by the
sender/timestamp path. -/
theorem c4_amended_witness :
    ("<B><FONT>X signed off at 1:00:00 AM</B>.</FONT>".toList ∈
      commentBlocks ("<B><FONT>X signed off at 1:00:00 AM</B>.</FONT><BR>".toList)) ∧
    signOffSearch ("<B><FONT>X signed off at 1:00:00 AM</B>.</FONT>".toList) =
      some ("X signed off at 1:00:00 AM".toList) ∧
    (⟨"System".toList, [], "X signed off at 1:00:00 AM".toList, true⟩ : Message) ∈
      commentParse ("<B><FONT>X signed off at 1:00:00 AM</B>.</FONT><BR>".toList) ∧
    (⟨"System".toList, [], "Y signed off at 2:00:00 AM".toList, true⟩ : Message) ∈
      spanParse ("<SPAN STYLE=\"background-color: #ffffff;\"><B><FONT>Y signed off at 2:00:00 AM</B>.</FONT></SPAN>".toList) ∧
    hasSubstr ("<B><FONT>A signed off at<!-- (1:00:00 PM)--></B></FONT>: <FONT>hi</FONT>".toList)
      signOffLit = true ∧
    signOffSearch ("<B><FONT>A signed off at<!-- (1:00:00 PM)--></B></FONT>: <FONT>hi</FONT>".toList) =
      none ∧
    processMessageLine ("<B><FONT>A signed off at<!-- (1:00:00 PM)--></B></FONT>: <FONT>hi</FONT>".toList) =
      [⟨"A signed off at".toList, "1:00:00 PM".toList, "hi".toList, false⟩] ∧
    processSpanMessage ("plain".toList) = spanSenderPart ("plain".toList) :=
  ⟨by decide, by decide,
   c4_amended.1 ("<B><FONT>X signed off at 1:00:00 AM</B>.</FONT><BR>".toList)
     ("<B><FONT>X signed off at 1:00:00 AM</B>.</FONT>".toList)
     ("X signed off at 1:00:00 AM".toList) (by decide) (by decide),
   c4_amended.2.1
     ("<SPAN STYLE=\"background-color: #ffffff;\"><B><FONT>Y signed off at 2:00:00 AM</B>.</FONT></SPAN>".toList)
     ("<B><FONT>Y signed off at 2:00:00 AM</B>.</FONT></SPAN>".toList)
     ("Y signed off at 2:00:00 AM".toList) 47 (by decide) (by decide) (by decide),
   by decide, by decide,
   (c4_amended.2.2.1
     ("<B><FONT>A signed off at<!-- (1:00:00 PM)--></B></FONT>: <FONT>hi</FONT>".toList)
     (by decide)).trans (by decide),
   c4_amended.2.2.2 ("plain".toList) (by decide)⟩

/-- Claim C5: format detection is total and is exactly the fixed-order
substring test of `AIMParserFactory.get_parser`: the SPAN wrapper tag
selects the nested-markup parser first; otherwise the comment parser is
returned, whether or not its own (two-delimiter) test fires, because it
is also the fallback.  `can_parse` of each dialect is the stated
substring containment check. -/
theorem c5_format_detection :
    ∀ doc : List Char,
      getParserKind doc = (if spanCanParse doc = true then ParserKind.span else ParserKind.comment) ∧
      spanCanParse doc = hasSubstr doc wrapLit ∧
      commentCanParse doc = (hasSubstr doc ("<!-- (".toList) && hasSubstr doc (")-->".toList)) := by
  intro doc
  refine ⟨?_, rfl, rfl⟩
  unfold getParserKind
  by_cases h : spanCanParse doc = true
  · rw [if_pos h, if_pos h]
  · rw [if_neg h, if_neg h]
    split <;> rfl

/-- Claim C6: the comment-dialect parser checks content emptiness
before entity decoding, so a block whose only body is `&nbsp;` (which
decodes to whitespace and strips to nothing) is emitted as a Message
with empty content rather than dropped, violating the spec invariant
that `content` is never empty. -/
theorem c6_empty_content_emitted :
    getParserKind ("<B><FONT>A<!-- (1:00:00 PM)--></B></FONT>: <FONT>&nbsp;</FONT><BR>".toList) =
      ParserKind.comment ∧
    aimParse ("<B><FONT>A<!-- (1:00:00 PM)--></B></FONT>: <FONT>&nbsp;</FONT><BR>".toList) =
      [⟨"A".toList, "1:00:00 PM".toList, [], false⟩] := by
  decide

/-- Claim C7 counterexample: normalization is not idempotent on all of
its own outputs, because entity decoding can fire again:
`&amp;amp;` normalizes to `&amp;`, which normalizes further to `&`. -/
theorem c7_counterexample :
    normalizeContent (normalizeContent ("&amp;amp;".toList)) ≠
      normalizeContent ("&amp;amp;".toList) := by
  decide

/-- Claim C7 (amended): the normalization pipeline is idempotent on
every output that contains no ampersand (so entity decoding acts as
the identity on it); the whitespace stages and the final strip are
always exhausted after one pass. -/
theorem c7_amended :
    ∀ s : List Char, hasSubstr (normalizeContent s) ['&'] = false →
      normalizeContent (normalizeContent s) = normalizeContent s :=
  fun _ h => normalizeContentFix h

/-- Witness for the amended claim C7 on a concrete string. -/
theorem c7_amended_witness :
    hasSubstr (normalizeContent ("  hello \n world    ok  ".toList)) ['&'] = false ∧
    normalizeContent (normalizeContent ("  hello \n world    ok  ".toList)) =
      normalizeContent ("  hello \n world    ok  ".toList) :=
  ⟨by decide, c7_amended _ (by decide)⟩

/-- Claim C8: a wrapper-delimited piece of the SPAN dialect whose
nesting counter never returns to zero contributes no Message, and
`SpanBasedParser.parse` is the (total) concatenation of the per-piece
messages over the rest of the document. -/
theorem c8_unterminated_wrapper_skipped :
    ∀ (doc part : List Char), part ∈ (pySplit wrapLit doc).drop 1 →
      findSpanEnd part = none →
      spanPartMessages part = [] ∧
      spanParse doc = (((pySplit wrapLit doc).drop 1).map spanPartMessages).flatten := by
  intro doc part _ hf
  constructor
  · unfold spanPartMessages
    rw [hf]
  · exact spanParseEqFlatten doc

/-- Witness for claim C8 on a concrete document whose single wrapper is
unterminated. -/
theorem c8_witness :
    "<B>unterminated".toList ∈
      (pySplit wrapLit ("<SPAN STYLE=\"background-color: #ffffff;\"><B>unterminated".toList)).drop 1 ∧
    findSpanEnd ("<B>unterminated".toList) = none ∧
    spanPartMessages ("<B>unterminated".toList) = [] ∧
    spanParse ("<SPAN STYLE=\"background-color: #ffffff;\"><B>unterminated".toList) =
      (((pySplit wrapLit ("<SPAN STYLE=\"background-color: #ffffff;\"><B>unterminated".toList)).drop 1).map
        spanPartMessages).flatten :=
  ⟨by decide, by decide,
   (c8_unterminated_wrapper_skipped
     ("<SPAN STYLE=\"background-color: #ffffff;\"><B>unterminated".toList)
     ("<B>unterminated".toList) (by decide) (by decide)).1,
   (c8_unterminated_wrapper_skipped
     ("<SPAN STYLE=\"background-color: #ffffff;\"><B>unterminated".toList)
     ("<B>unterminated".toList) (by decide) (by decide)).2⟩

/-- Claim C9: in every parse result (either dialect),
`is_system_message = true` forces sender `System` and empty timestamp;
a Message with any other sender together with a non-empty timestamp is
a regular message; and the `Message` record consists of exactly its
four fields. -/
theorem c9_system_message_invariant :
    (∀ (doc : List Char) (m : Message), m ∈ aimParse doc →
      (m.is_system_message = true → m.sender = "System".toList ∧ m.timestamp = []) ∧
      (m.sender ≠ "System".toList → m.timestamp ≠ [] → m.is_system_message = false)) ∧
    (∀ m : Message, m = ⟨m.sender, m.timestamp, m.content, m.is_system_message⟩) := by
  constructor
  · intro doc m hm
    have h := memAimParseInv hm
    refine ⟨h, ?_⟩
    intro hsender _
    cases hb : m.is_system_message
    · rfl
    · exact absurd (h hb).1 hsender
  · intro m
    rfl

/-- Witness for claim C9 on a concrete sign-off document. -/
theorem c9_witness :
    (⟨"System".toList, [], "W signed off at 3:00:00 AM".toList, true⟩ : Message).sender =
      "System".toList ∧
    (⟨"System".toList, [], "W signed off at 3:00:00 AM".toList, true⟩ : Message).timestamp = [] :=
  (c9_system_message_invariant.1 ("<B><FONT>W signed off at 3:00:00 AM</B>.</FONT><BR>".toList) _
    (by decide)).1 rfl

/-- Claim C10: `MarkdownConverter.convert` reads `is_auto_response`
(and `is_session_concluded`) as soon as it meets a message with
`is_system_message` set, attributes the parser's `Message` record does
not carry, so it raises for every sequence containing a system
message; a non-empty all-regular sequence converts without raising. -/
theorem c10_convert_requires_extended_fields :
    ∀ msgs : List Message, msgs ≠ [] →
      ((∃ m ∈ msgs, m.is_system_message = true) → ∃ e, convert msgs = Except.error e) ∧
      ((∀ m ∈ msgs, m.is_system_message = false) → ∃ s, convert msgs = Except.ok s) := by
  intro msgs hne
  cases msgs with
  | nil => exact absurd rfl hne
  | cons m rest =>
    constructor
    · intro h
      obtain ⟨e, he⟩ := convertGoErrorOfSys (m :: rest) none none [] [] h
      refine ⟨e, ?_⟩
      show (convertGo none none [] [] (m :: rest)).map
        (fun out => (out.intersperse ['\n']).flatten) = Except.error e
      rw [he]
      rfl
    · intro h
      obtain ⟨r, hr⟩ := convertGoOkOfRegular (m :: rest) none none [] [] h
      refine ⟨(r.intersperse ['\n']).flatten, ?_⟩
      show (convertGo none none [] [] (m :: rest)).map
        (fun out => (out.intersperse ['\n']).flatten) = Except.ok ((r.intersperse ['\n']).flatten)
      rw [hr]
      rfl

/-- Witness for claim C10: a singleton system message errors, a
singleton regular message converts. -/
theorem c10_witness :
    (∃ e, convert [⟨"System".toList, [], "x".toList, true⟩] = Except.error e) ∧
    (∃ s, convert [⟨"Alice".toList, "10:00:00 PM".toList, "hi".toList, false⟩] = Except.ok s) :=
  ⟨(c10_convert_requires_extended_fields [⟨"System".toList, [], "x".toList, true⟩] (by decide)).1
    ⟨⟨"System".toList, [], "x".toList, true⟩, by decide⟩,
   (c10_convert_requires_extended_fields [⟨"Alice".toList, "10:00:00 PM".toList, "hi".toList, false⟩]
     (by decide)).2 (by decide)⟩
